import Mathlib

/-!
Verification of the Smart File Management System engine.

This development shallowly embeds the engine of the C++ sources:

* `FileInfo` (include/FileInfo.h) — the immutable per-file record.
* `FileManager::extractExtension` and `FileManager::scanDirectory`
  (src/FileManager.cpp) — metadata extraction and directory scanning.
* `FileSorter::initializeCategories`, `FileSorter::getCategoryForExtension`,
  `FileSorter::createDirectoryIfNotExists`, `FileSorter::organizeByExtension`
  (FileSorter.cpp) — the category classifier and the reorganizer.
* `FileSearcher::toLowercase`, `FileSearcher::searchByName`,
  `FileSearcher::generateSimpleHash`, `FileSearcher::findDuplicates`
  (FileSearcher.cpp) — the name searcher and the duplicate grouper.
* `Menu::handleSearchFiles` (Menu.cpp) — the UI boundary guard for search.

The filesystem is modelled as an explicit state (`FS`): a finite collection
of regular files (path to content), a set of directories, and a set of paths
on which the underlying filesystem raises `fs::filesystem_error`
(permissions and the like).  Every C++ `try`/`catch` block around a
filesystem primitive becomes an explicit case split on that model, so the
embedded operations are total functions on the state — mirroring the fact
that no exception escapes the engine's batch loops.
-/

namespace FileApp

/-- Embeds `struct FileInfo` (FileInfo.h): `name` (filename with extension),
`path` (full filesystem path, modelled as a string), `extension`
(lowercased, with leading dot, empty if none), `size` (bytes; `uintmax_t`
modelled as `Nat`).  The lazily computed `hash` member is never read by the
engine and is omitted. -/
structure FileInfo where
  name : String
  path : String
  extension : String
  size : Nat
  deriving Repr, DecidableEq

/-! ### String helpers (FileSearcher::toLowercase, std::transform ::tolower) -/

/-- Embeds `FileSearcher::toLowercase` (and the identical lowercasing loop in
`FileManager::extractExtension`): `std::transform` with ASCII `tolower`
applied to every character.  `Char.toLower` is exactly the ASCII table case
of C's `tolower`. -/
def toLowercase (s : String) : String :=
  String.mk (s.data.map Char.toLower)

/-- Embeds `std::string::find(needle) != npos`: the needle occurs as a
contiguous substring of the haystack. -/
def containsSubstr (hay needle : String) : Bool :=
  decide (needle.data <:+: hay.data)

/-! ### FileManager::extractExtension -/

/-- Embeds `std::string::find_last_of('.')`: the index of the last `'.'` in
the character list, or `none` when there is no dot (`npos`). -/
def findLastDot : List Char → Option Nat
  | [] => none
  | c :: cs =>
    match findLastDot cs with
    | some i => some (i + 1)
    | none => if c = '.' then some 0 else none

/-- Embeds `FileManager::extractExtension` (FileManager.cpp, lines 211-241):
find the last `'.'`; if it exists at a position strictly greater than zero,
return the lowercased suffix starting at the dot, otherwise return `""`. -/
def extractExtension (filename : String) : String :=
  match findLastDot filename.data with
  | some dotPos =>
    if dotPos > 0 then toLowercase (String.mk (filename.data.drop dotPos))
    else ""
  | none => ""

/-! ### FileSorter: the category table and classifier -/

/-- Embeds the fixed extension-to-category table populated by
`FileSorter::initializeCategories` (FileSorter.cpp), key by key in source
order.  All keys are distinct, so the association list has the same lookup
behaviour as the `std::map` member `extensionCategories`. -/
def extensionCategories : List (String × String) :=
  [(".txt", "Documents"), (".pdf", "Documents"), (".doc", "Documents"),
   (".docx", "Documents"), (".xlsx", "Documents"), (".xls", "Documents"),
   (".ppt", "Documents"), (".pptx", "Documents"), (".odt", "Documents"),
   (".rtf", "Documents"),
   (".jpg", "Images"), (".jpeg", "Images"), (".png", "Images"),
   (".gif", "Images"), (".bmp", "Images"), (".svg", "Images"),
   (".ico", "Images"), (".tiff", "Images"), (".webp", "Images"),
   (".mp4", "Videos"), (".avi", "Videos"), (".mkv", "Videos"),
   (".mov", "Videos"), (".wmv", "Videos"), (".flv", "Videos"),
   (".webm", "Videos"), (".m4v", "Videos"),
   (".mp3", "Audio"), (".wav", "Audio"), (".flac", "Audio"),
   (".aac", "Audio"), (".ogg", "Audio"), (".wma", "Audio"),
   (".m4a", "Audio"),
   (".zip", "Archives"), (".rar", "Archives"), (".7z", "Archives"),
   (".tar", "Archives"), (".gz", "Archives"), (".bz2", "Archives"),
   (".xz", "Archives"),
   (".cpp", "Code"), (".h", "Code"), (".hpp", "Code"), (".c", "Code"),
   (".py", "Code"), (".java", "Code"), (".js", "Code"), (".ts", "Code"),
   (".html", "Code"), (".css", "Code"), (".php", "Code"), (".rb", "Code"),
   (".go", "Code"), (".rs", "Code"),
   (".exe", "Executables"), (".dll", "Executables"), (".so", "Executables"),
   (".app", "Executables"), (".deb", "Executables"), (".rpm", "Executables")]

/-- Association-list lookup, the model of `std::map::find`. -/
def lookupTable : List (String × String) → String → Option String
  | [], _ => none
  | (k, v) :: rest, e => if k = e then some v else lookupTable rest e

/-- Embeds `FileSorter::getCategoryForExtension` (FileSorter.cpp, lines
147-176): `find` in the table, returning the mapped category on a hit and
`"Others"` on a miss. -/
def getCategoryForExtension (e : String) : String :=
  match lookupTable extensionCategories e with
  | some cat => cat
  | none => "Others"

/-! ### FileSearcher: name search and duplicate grouping -/

/-- Embeds `FileSearcher::searchByName` (FileSearcher.cpp, lines 321-359):
lowercase the search term once, then keep, in input order, every record
whose lowercased name contains the lowercased term as a substring. -/
def searchByName (files : List FileInfo) (searchTerm : String) : List FileInfo :=
  let lowerSearchTerm := toLowercase searchTerm
  files.filter (fun f => containsSubstr (toLowercase f.name) lowerSearchTerm)

/-- Embeds `FileSearcher::generateSimpleHash` (FileSearcher.cpp, lines
282-284): `std::to_string(file.size) + "_" + file.name`. -/
def generateSimpleHash (f : FileInfo) : String :=
  Nat.repr f.size ++ "_" ++ f.name

/-- Association-list membership of a key among the group keys. -/
def keysOf (m : List (String × List FileInfo)) : List String :=
  m.map Prod.fst

/-- The bucket stored under a key, `[]` when the key is absent.  Models
reading `hashGroups[hash]` of the `std::map` built by `findDuplicates`. -/
def lookupGroup : List (String × List FileInfo) → String → List FileInfo
  | [], _ => []
  | (k, g) :: rest, h => if k = h then g else lookupGroup rest h

/-- One iteration of the grouping loop of `FileSearcher::findDuplicates`:
`hashGroups[hash].push_back(file)` — append the record to the bucket of its
fingerprint, creating the bucket when absent.  The association list keeps
one entry per key (new keys go to the end), so its contents coincide with
the `std::map`'s. -/
def addToGroup : List (String × List FileInfo) → String → FileInfo → List (String × List FileInfo)
  | [], h, f => [(h, [f])]
  | (k, g) :: rest, h, f =>
    if k = h then (k, g ++ [f]) :: rest else (k, g) :: addToGroup rest h f

/-- The grouping pass of `FileSearcher::findDuplicates` (FileSearcher.cpp,
lines 435-438): fold the records into fingerprint buckets, bucket order
following input encounter order. -/
def hashGroups (files : List FileInfo) : List (String × List FileInfo) :=
  files.foldl (fun m f => addToGroup m (generateSimpleHash f) f) []

/-- Embeds `FileSearcher::findDuplicates` (FileSearcher.cpp, lines 410-465):
group by fingerprint, then keep only buckets holding two or more records. -/
def findDuplicates (files : List FileInfo) : List (String × List FileInfo) :=
  (hashGroups files).filter (fun kg => 2 ≤ kg.2.length)

/-! ### The filesystem model and FileSorter's move machinery -/

/-- The filesystem state seen by the engine: `files` maps each regular
file's full path to its content, `dirs` lists the directories that exist,
and `failedPaths` lists the paths on which the underlying filesystem
raises `fs::filesystem_error` (permission denied and the like) — the error
source caught by the engine's `try`/`catch` blocks. -/
structure FS where
  files : List (String × String)
  dirs : List String
  failedPaths : List String
  deriving Repr, DecidableEq

/-- Content of the regular file at `p`, if one exists. -/
def FS.lookupFile (fs : FS) (p : String) : Option String :=
  fs.files.lookup p

/-- Embeds `fs::exists`: true when a regular file or a directory is
present at the path. -/
def FS.existsPath (fs : FS) (p : String) : Bool :=
  (fs.lookupFile p).isSome || fs.dirs.contains p

/-- Embeds `fs::rename(src, dst)`: raises an error (`Except.error`) when
the filesystem fails on either path or when there is no file at `src`;
otherwise removes the file from `src` and installs its content at `dst`
(POSIX rename replaces `dst` when it is an existing file). -/
def FS.rename (fs : FS) (src dst : String) : Except String FS :=
  if fs.failedPaths.contains src || fs.failedPaths.contains dst then
    Except.error "filesystem error"
  else
    match fs.lookupFile src with
    | none => Except.error "no such file or directory"
    | some content =>
      Except.ok { fs with
        files := (dst, content) ::
          fs.files.filter (fun kv => !(kv.1 = src || kv.1 = dst)) }

/-- Embeds `FileSorter::createDirectoryIfNotExists` (FileSorter.cpp, lines
195-220): return true immediately when the path exists; otherwise attempt
`fs::create_directories`, catching any filesystem error and returning
false in that case. -/
def createDirectoryIfNotExists (fs : FS) (path : String) : Bool × FS :=
  if fs.existsPath path then (true, fs)
  else if fs.failedPaths.contains path then (false, fs)
  else (true, { fs with dirs := path :: fs.dirs })

/-- The per-record outcome of the reorganize loop, matching the log lines
written by `FileSorter::organizeByExtension`: a successful move, a
"SKIPPED: File already exists" conflict, or a caught-and-logged error. -/
inductive Outcome where
  | moved
  | skippedExists
  | failed
  deriving Repr, DecidableEq

/-- The destination path `baseDirectory + "/" + category + "/" + name`
computed by `FileSorter::organizeByExtension` for a record. -/
def destPathOf (base : String) (f : FileInfo) : String :=
  base ++ "/" ++ getCategoryForExtension f.extension ++ "/" ++ f.name

/-- The body of the per-record loop of `FileSorter::organizeByExtension`
(FileSorter.cpp, lines 279-344): classify, create the category directory
(on failure, log and continue), skip when the destination already exists,
otherwise rename — catching any filesystem error so that a failure leaves
this record unmoved and the batch running.  Totality of this function is
the model of "no exception propagates out of the loop body". -/
def organizeStep (base : String) (fs : FS) (f : FileInfo) : Outcome × FS :=
  let category := getCategoryForExtension f.extension
  let categoryPath := base ++ "/" ++ category
  let (ok, fs1) := createDirectoryIfNotExists fs categoryPath
  if !ok then (Outcome.failed, fs1)
  else
    let destPath := categoryPath ++ "/" ++ f.name
    if fs1.existsPath destPath then (Outcome.skippedExists, fs1)
    else
      match fs1.rename f.path destPath with
      | Except.ok fs2 => (Outcome.moved, fs2)
      | Except.error _ => (Outcome.failed, fs1)

/-- Embeds `FileSorter::organizeByExtension` (FileSorter.cpp, lines
253-349): process the records in input order, threading the filesystem
state and counting exactly the records whose move succeeded
(`movedCount++` only after a successful `fs::rename`). -/
def organizeByExtension (files : List FileInfo) (base : String) (fs : FS) : Nat × FS :=
  match files with
  | [] => (0, fs)
  | f :: rest =>
    let (out, fs1) := organizeStep base fs f
    let (n, fs2) := organizeByExtension rest base fs1
    ((if out = Outcome.moved then 1 else 0) + n, fs2)

/-! ### FileManager::scanDirectory -/

/-- One entry returned by `fs::directory_iterator`: its filename, full
path, whether it is a regular file, whether reading its metadata
(`fs::file_size`) succeeds, and its size. -/
structure DirEntry where
  name : String
  fullPath : String
  isRegular : Bool
  readable : Bool
  size : Nat
  deriving Repr, DecidableEq

/-- The state of the target directory as the scan observes it: missing (or
not a directory), present but failing to open for iteration, or readable
with a list of entries. -/
inductive DirListing where
  | missing
  | openFails
  | listed (entries : List DirEntry)
  deriving Repr, DecidableEq

/-- Embeds `FileManager::getFileInfo` (FileManager.cpp, lines 163-187):
build the record from the entry's name and size, deriving the extension
from the filename; on a metadata read failure return the default-constructed
empty record. -/
def getFileInfo (e : DirEntry) : FileInfo :=
  if e.readable then
    { name := e.name, path := e.fullPath,
      extension := extractExtension e.name, size := e.size }
  else
    { name := "", path := "", extension := "", size := 0 }

/-- Embeds `FileManager::scanDirectory` (FileManager.cpp, lines 95-147).
The member vector `files` is cleared first; a missing directory returns 0
with the collection empty; a directory that cannot be opened for iteration
throws at `fs::directory_iterator` construction, which is caught and also
returns 0 with the collection still empty; otherwise every regular-file
entry is converted by `getFileInfo` and pushed, and the new count is
returned.  The result pair is (returned count, new `files` collection);
the prior collection is an argument only to show that it is discarded. -/
def scanDirectory (prior : List FileInfo) (dir : DirListing) : Nat × List FileInfo :=
  match prior, dir with
  | _, DirListing.missing => (0, [])
  | _, DirListing.openFails => (0, [])
  | _, DirListing.listed entries =>
    let files := (entries.filter (fun e => e.isRegular)).map getFileInfo
    (files.length, files)

/-! ### Menu::handleSearchFiles (the UI boundary) -/

/-- Embeds the decision logic of `Menu::handleSearchFiles` (Menu.cpp):
nothing scanned or an empty search term aborts before calling the
searcher (`none`); otherwise the searcher's result is displayed (`some`). -/
def handleSearchFiles (files : List FileInfo) (searchTerm : String) : Option (List FileInfo) :=
  if files.isEmpty then none
  else if searchTerm.isEmpty then none
  else some (searchByName files searchTerm)

/-! ### Concrete records used by the spec's examples -/

/-- The first record of the spec's search example. -/
def reportTxt : FileInfo :=
  { name := "report.txt", path := "/docs/report.txt", extension := ".txt", size := 10 }

/-- The second record of the spec's search example. -/
def reportPdf : FileInfo :=
  { name := "Report_2024.pdf", path := "/docs/Report_2024.pdf", extension := ".pdf", size := 20 }

/-- The third record of the spec's search example. -/
def summaryDoc : FileInfo :=
  { name := "summary.doc", path := "/docs/summary.doc", extension := ".doc", size := 30 }

/-- A freshly scanned text file, used to exercise the reorganizer. -/
def recA : FileInfo :=
  { name := "a.txt", path := "/scan/a.txt", extension := ".txt", size := 5 }

/-- A record already residing at its computed destination
`/base/Documents/a.txt`. -/
def recOrganized : FileInfo :=
  { name := "a.txt", path := "/base/Documents/a.txt", extension := ".txt", size := 5 }

/-- A filesystem in which `recA`'s destination `/base/Documents/a.txt` is
already occupied by a different file. -/
def fsConflict : FS :=
  { files := [("/scan/a.txt", "A"), ("/base/Documents/a.txt", "B")],
    dirs := ["/base"], failedPaths := [] }

/-- An already-organized filesystem: `recOrganized` sits at its destination
and the category directory exists. -/
def fsOrganized : FS :=
  { files := [("/base/Documents/a.txt", "A")],
    dirs := ["/base", "/base/Documents"], failedPaths := [] }

/-- An empty filesystem: any move from it fails because the source file is
missing. -/
def fsEmpty : FS :=
  { files := [], dirs := [], failedPaths := [] }

/-- Two records agreeing in size and name but living in different
directories — duplicates under the (size, name) fingerprint. -/
def dupA : FileInfo :=
  { name := "notes.txt", path := "/d1/notes.txt", extension := ".txt", size := 7 }

/-- See `dupA`. -/
def dupB : FileInfo :=
  { name := "notes.txt", path := "/d2/notes.txt", extension := ".txt", size := 7 }

/-! ### Decimal rendering: facts about `Nat.repr`

`std::to_string` on an unsigned integer and `Nat.repr` both produce the
decimal digit string.  The fingerprint claims need two facts about it: it
never contains the `'_'` separator, and it is injective. -/

/-- Structural restatement of the digit list produced by `Nat.toDigits 10`:
most significant digit first, by repeated division. -/
def digitsOf (n : Nat) : List Char :=
  if n < 10 then [Nat.digitChar n]
  else digitsOf (n / 10) ++ [Nat.digitChar (n % 10)]
termination_by n
decreasing_by exact Nat.div_lt_self (by omega) (by omega)

theorem digitsOf_eq (n : Nat) :
    digitsOf n =
      if n < 10 then [Nat.digitChar n]
      else digitsOf (n / 10) ++ [Nat.digitChar (n % 10)] := by
  rw [digitsOf]

theorem toDigitsCore_eq_digitsOf (fuel : Nat) :
    ∀ (n : Nat) (ds : List Char), n < fuel →
      Nat.toDigitsCore 10 fuel n ds = digitsOf n ++ ds := by
  induction fuel with
  | zero => intro n ds h; exact absurd h (by omega)
  | succ fuel ih =>
    intro n ds h
    rw [show Nat.toDigitsCore 10 (fuel + 1) n ds =
          if n / 10 = 0 then Nat.digitChar (n % 10) :: ds
          else Nat.toDigitsCore 10 fuel (n / 10) (Nat.digitChar (n % 10) :: ds)
        from rfl]
    by_cases h10 : n / 10 = 0
    · rw [if_pos h10, digitsOf_eq, if_pos (by omega : n < 10)]
      have : n % 10 = n := by omega
      rw [this]
      rfl
    · rw [if_neg h10]
      have hge : 10 ≤ n := by omega
      have hlt : n / 10 < fuel := by omega
      rw [ih (n / 10) (Nat.digitChar (n % 10) :: ds) hlt]
      rw [digitsOf_eq n, if_neg (by omega : ¬ n < 10)]
      simp

theorem repr_data_eq_digitsOf (n : Nat) : (Nat.repr n).data = digitsOf n := by
  have h := toDigitsCore_eq_digitsOf (n + 1) n [] (by omega)
  show (Nat.toDigits 10 n).asString.data = digitsOf n
  rw [show Nat.toDigits 10 n = Nat.toDigitsCore 10 (n + 1) n [] from rfl, h]
  simp [List.asString]

theorem digitChar_toNat_of_lt {m : Nat} (h : m < 10) :
    (Nat.digitChar m).toNat = 48 + m := by
  interval_cases m <;> rfl

theorem underscore_notin_digitsOf (n : Nat) : '_' ∉ digitsOf n := by
  induction n using Nat.strong_induction_on with
  | _ n ih =>
    rw [digitsOf_eq]
    by_cases h : n < 10
    · rw [if_pos h]
      intro hmem
      have h1 : Nat.digitChar n = '_' := (List.mem_singleton.1 hmem).symm
      have h2 := digitChar_toNat_of_lt h
      rw [h1, show ('_' : Char).toNat = 95 from rfl] at h2
      omega
    · rw [if_neg h]
      intro hmem
      rcases List.mem_append.1 hmem with h1 | h2
      · exact ih (n / 10) (by omega) h1
      · have h3 : Nat.digitChar (n % 10) = '_' := (List.mem_singleton.1 h2).symm
        have h4 := digitChar_toNat_of_lt (show n % 10 < 10 by omega)
        rw [h3, show ('_' : Char).toNat = 95 from rfl] at h4
        omega

theorem digitsOf_ne_nil (n : Nat) : digitsOf n ≠ [] := by
  rw [digitsOf_eq]
  by_cases h : n < 10
  · rw [if_pos h]; simp
  · rw [if_neg h]; simp

theorem digitsOf_injective (m : Nat) :
    ∀ n : Nat, digitsOf m = digitsOf n → m = n := by
  induction m using Nat.strong_induction_on with
  | _ m ih =>
    intro n heq
    rw [digitsOf_eq m, digitsOf_eq n] at heq
    by_cases hm : m < 10 <;> by_cases hn : n < 10
    · rw [if_pos hm, if_pos hn] at heq
      have h1 : Nat.digitChar m = Nat.digitChar n := by simpa using heq
      have h2 := digitChar_toNat_of_lt hm
      have h3 := digitChar_toNat_of_lt hn
      rw [h1, h3] at h2
      omega
    · rw [if_pos hm, if_neg hn] at heq
      have hlen := congrArg List.length heq
      rw [List.length_append] at hlen
      simp only [List.length_singleton] at hlen
      have h0 : (digitsOf (n / 10)).length = 0 := by omega
      exact absurd (List.length_eq_zero.1 h0) (digitsOf_ne_nil (n / 10))
    · rw [if_neg hm, if_pos hn] at heq
      have hlen := congrArg List.length heq
      rw [List.length_append] at hlen
      simp only [List.length_singleton] at hlen
      have h0 : (digitsOf (m / 10)).length = 0 := by omega
      exact absurd (List.length_eq_zero.1 h0) (digitsOf_ne_nil (m / 10))
    · rw [if_neg hm, if_neg hn] at heq
      obtain ⟨h1, h2⟩ := List.append_inj' heq (by simp)
      have hdiv : m / 10 = n / 10 := ih (m / 10) (by omega) (n / 10) h1
      have h3 : Nat.digitChar (m % 10) = Nat.digitChar (n % 10) := by simpa using h2
      have h4 := digitChar_toNat_of_lt (show m % 10 < 10 by omega)
      have h5 := digitChar_toNat_of_lt (show n % 10 < 10 by omega)
      rw [h3, h5] at h4
      omega

theorem string_data_inj {s t : String} (h : s.data = t.data) : s = t := by
  cases s
  cases t
  exact congrArg String.mk h

theorem repr_injective {m n : Nat} (h : Nat.repr m = Nat.repr n) : m = n := by
  have hd := congrArg String.data h
  rw [repr_data_eq_digitsOf, repr_data_eq_digitsOf] at hd
  exact digitsOf_injective m n hd

theorem underscore_notin_repr (n : Nat) : '_' ∉ (Nat.repr n).data := by
  rw [repr_data_eq_digitsOf]
  exact underscore_notin_digitsOf n

theorem append_sep_inj :
    ∀ (a : List Char) {b : List Char} (c : List Char) {d : List Char},
      '_' ∉ a → '_' ∉ c → a ++ '_' :: b = c ++ '_' :: d → a = c ∧ b = d := by
  intro a
  induction a with
  | nil =>
    intro b c d _ hc h
    cases c with
    | nil =>
      simp at h
      exact ⟨rfl, h⟩
    | cons y cs =>
      simp at h
      exact absurd (h.1 ▸ List.mem_cons_self y cs) hc
  | cons x as ih =>
    intro b c d ha hc h
    cases c with
    | nil =>
      simp at h
      exact absurd (h.1 ▸ List.mem_cons_self x as) ha
    | cons y cs =>
      simp at h
      obtain ⟨hxy, hrest⟩ := h
      have ha' : '_' ∉ as := fun hmem => ha (List.mem_cons_of_mem x hmem)
      have hc' : '_' ∉ cs := fun hmem => hc (List.mem_cons_of_mem y hmem)
      obtain ⟨h1, h2⟩ := ih cs ha' hc' hrest
      exact ⟨by rw [hxy, h1], h2⟩

/-- The fingerprint `std::to_string(size) + "_" + name` determines, and is
determined by, the (size, name) pair: the decimal size rendering contains
no `'_'`, so the first `'_'` splits the fingerprint unambiguously. -/
theorem generateSimpleHash_eq_iff (f1 f2 : FileInfo) :
    generateSimpleHash f1 = generateSimpleHash f2 ↔
      f1.size = f2.size ∧ f1.name = f2.name := by
  constructor
  · intro h
    have hd := congrArg String.data h
    rw [show (generateSimpleHash f1).data =
          (Nat.repr f1.size).data ++ '_' :: f1.name.data by
        simp [generateSimpleHash, String.data_append]] at hd
    rw [show (generateSimpleHash f2).data =
          (Nat.repr f2.size).data ++ '_' :: f2.name.data by
        simp [generateSimpleHash, String.data_append]] at hd
    obtain ⟨h1, h2⟩ :=
      append_sep_inj _ _ (underscore_notin_repr f1.size)
        (underscore_notin_repr f2.size) hd
    exact ⟨repr_injective (string_data_inj h1), string_data_inj h2⟩
  · intro h
    show Nat.repr f1.size ++ "_" ++ f1.name = Nat.repr f2.size ++ "_" ++ f2.name
    rw [h.1, h.2]

/-! ### Grouping lemmas for `findDuplicates` -/

theorem keysOf_cons (k : String) (g : List FileInfo) (rest : List (String × List FileInfo)) :
    keysOf ((k, g) :: rest) = k :: keysOf rest := rfl

theorem lookupGroup_addToGroup (m : List (String × List FileInfo)) (h h2 : String) (f : FileInfo) :
    lookupGroup (addToGroup m h f) h2 =
      if h = h2 then lookupGroup m h2 ++ [f] else lookupGroup m h2 := by
  induction m with
  | nil =>
    by_cases hh : h = h2 <;> simp [addToGroup, lookupGroup, hh]
  | cons kg rest ih =>
    obtain ⟨k, g⟩ := kg
    by_cases hk : k = h
    · subst hk
      by_cases hh : k = h2 <;> simp [addToGroup, lookupGroup, hh]
    · by_cases hk2 : k = h2
      · subst hk2
        simp [addToGroup, hk, lookupGroup, if_neg (fun hh : h = k => hk hh.symm)]
      · simp [addToGroup, hk, lookupGroup, hk2, ih]

theorem keysOf_addToGroup (m : List (String × List FileInfo)) (h : String) (f : FileInfo) :
    keysOf (addToGroup m h f) =
      if h ∈ keysOf m then keysOf m else keysOf m ++ [h] := by
  induction m with
  | nil => simp [addToGroup, keysOf]
  | cons kg rest ih =>
    obtain ⟨k, g⟩ := kg
    by_cases hk : k = h
    · subst hk
      simp [addToGroup, keysOf]
    · have hstep : keysOf (addToGroup ((k, g) :: rest) h f) =
          k :: keysOf (addToGroup rest h f) := by
        simp [addToGroup, hk, keysOf]
      rw [hstep, ih, keysOf_cons]
      by_cases hm : h ∈ keysOf rest
      · rw [if_pos hm, if_pos (List.mem_cons_of_mem k hm)]
      · rw [if_neg hm,
          if_neg (by
            rw [List.mem_cons]
            push_neg
            exact ⟨fun hh => hk hh.symm, hm⟩)]
        rfl

theorem nodup_keysOf_addToGroup (m : List (String × List FileInfo)) (h : String) (f : FileInfo)
    (hnd : (keysOf m).Nodup) : (keysOf (addToGroup m h f)).Nodup := by
  rw [keysOf_addToGroup]
  by_cases hm : h ∈ keysOf m
  · rw [if_pos hm]; exact hnd
  · rw [if_neg hm]
    simp [List.nodup_append, hnd, hm]

theorem lookupGroup_foldl (files : List FileInfo) :
    ∀ (m : List (String × List FileInfo)) (h : String),
      lookupGroup (files.foldl (fun m f => addToGroup m (generateSimpleHash f) f) m) h =
        lookupGroup m h ++ files.filter (fun f => generateSimpleHash f = h) := by
  induction files with
  | nil => intro m h; simp
  | cons f rest ih =>
    intro m h
    rw [List.foldl_cons, ih, lookupGroup_addToGroup]
    by_cases hf : generateSimpleHash f = h
    · rw [if_pos hf, List.filter_cons_of_pos (by simp [hf]), List.append_assoc]
      rfl
    · rw [if_neg hf, List.filter_cons_of_neg (by simp [hf])]

theorem nodup_keysOf_hashGroups (files : List FileInfo) :
    (keysOf (hashGroups files)).Nodup := by
  have haux : ∀ m, (keysOf m).Nodup →
      (keysOf (files.foldl (fun m f => addToGroup m (generateSimpleHash f) f) m)).Nodup := by
    induction files with
    | nil => intro m hm; simpa using hm
    | cons f rest ih =>
      intro m hm
      rw [List.foldl_cons]
      exact ih _ (nodup_keysOf_addToGroup _ _ _ hm)
  exact haux [] (by simp [keysOf])

theorem lookupGroup_hashGroups (files : List FileInfo) (h : String) :
    lookupGroup (hashGroups files) h =
      files.filter (fun f => generateSimpleHash f = h) := by
  have := lookupGroup_foldl files [] h
  simpa [hashGroups, lookupGroup] using this

theorem lookupGroup_eq_of_mem :
    ∀ {m : List (String × List FileInfo)} {k : String} {g : List FileInfo},
      (keysOf m).Nodup → (k, g) ∈ m → lookupGroup m k = g := by
  intro m
  induction m with
  | nil => intro k g _ hmem; cases hmem
  | cons kg rest ih =>
    intro k g hnd hmem
    obtain ⟨k1, g1⟩ := kg
    rw [keysOf_cons, List.nodup_cons] at hnd
    rcases List.mem_cons.1 hmem with heq | htail
    · cases heq
      simp [lookupGroup]
    · have hk1 : k1 ≠ k := by
        intro hk
        subst hk
        exact hnd.1 (List.mem_map.2 ⟨(k1, g), htail, rfl⟩)
      simp only [lookupGroup, if_neg hk1]
      exact ih hnd.2 htail

theorem mem_keysOf_of_lookupGroup_ne_nil :
    ∀ {m : List (String × List FileInfo)} {k : String},
      lookupGroup m k ≠ [] → k ∈ keysOf m := by
  intro m
  induction m with
  | nil => intro k h; exact absurd rfl h
  | cons kg rest ih =>
    intro k h
    obtain ⟨k1, g1⟩ := kg
    rw [keysOf_cons]
    by_cases hk : k1 = k
    · exact hk ▸ List.mem_cons_self k1 _
    · simp only [lookupGroup, if_neg hk] at h
      exact List.mem_cons_of_mem _ (ih h)

theorem exists_entry_of_mem_keysOf :
    ∀ {m : List (String × List FileInfo)} {k : String},
      k ∈ keysOf m → ∃ g, (k, g) ∈ m := by
  intro m
  induction m with
  | nil => intro k h; simp [keysOf] at h
  | cons kg rest ih =>
    intro k h
    obtain ⟨k1, g1⟩ := kg
    rw [keysOf_cons] at h
    rcases List.mem_cons.1 h with heq | htail
    · subst heq
      exact ⟨g1, by simp⟩
    · obtain ⟨g, hg⟩ := ih htail
      exact ⟨g, List.mem_cons_of_mem _ hg⟩

theorem length_filter_le_one_of_pairwise {files : List FileInfo} {k : String}
    (hp : files.Pairwise (fun f g => generateSimpleHash f ≠ generateSimpleHash g)) :
    (files.filter (fun f => generateSimpleHash f = k)).length ≤ 1 := by
  induction files with
  | nil => simp
  | cons f rest ih =>
    obtain ⟨hf, hrest⟩ := List.pairwise_cons.1 hp
    by_cases hfk : generateSimpleHash f = k
    · rw [List.filter_cons_of_pos (by simp [hfk])]
      have hnil : rest.filter (fun g => generateSimpleHash g = k) = [] := by
        rw [List.filter_eq_nil_iff]
        intro g hg
        simp only [decide_eq_true_eq]
        intro hgk
        exact hf g hg (by rw [hfk, hgk])
      rw [hnil]
      simp
    · rw [List.filter_cons_of_neg (by simp [hfk])]
      exact ih hrest

theorem two_le_length_of_mem_ne {α : Type} {a b : α} {l : List α}
    (ha : a ∈ l) (hb : b ∈ l) (hne : a ≠ b) : 2 ≤ l.length := by
  match l with
  | [] => cases ha
  | [x] =>
    rw [List.mem_singleton] at ha hb
    exact absurd (ha.trans hb.symm) hne
  | x :: y :: t =>
    simp only [List.length_cons]
    omega

/-! ### Filesystem-state lemmas for the reorganizer -/

theorem organizeStep_def (base : String) (fs : FS) (f : FileInfo) :
    organizeStep base fs f =
      (let categoryPath := base ++ "/" ++ getCategoryForExtension f.extension
       let cd := createDirectoryIfNotExists fs categoryPath
       if !cd.1 then (Outcome.failed, cd.2)
       else
         let destPath := categoryPath ++ "/" ++ f.name
         if cd.2.existsPath destPath then (Outcome.skippedExists, cd.2)
         else
           match cd.2.rename f.path destPath with
           | Except.ok fs2 => (Outcome.moved, fs2)
           | Except.error _ => (Outcome.failed, cd.2)) := rfl

theorem organizeByExtension_cons (f : FileInfo) (rest : List FileInfo) (base : String) (fs : FS) :
    organizeByExtension (f :: rest) base fs =
      ((if (organizeStep base fs f).1 = Outcome.moved then 1 else 0) +
         (organizeByExtension rest base (organizeStep base fs f).2).1,
       (organizeByExtension rest base (organizeStep base fs f).2).2) := rfl

theorem createDirectoryIfNotExists_files (fs : FS) (p : String) :
    (createDirectoryIfNotExists fs p).2.files = fs.files := by
  unfold createDirectoryIfNotExists
  split_ifs <;> rfl

theorem lookupFile_eq_of_files_eq {fs1 fs2 : FS} (h : fs1.files = fs2.files) (p : String) :
    fs1.lookupFile p = fs2.lookupFile p := by
  unfold FS.lookupFile
  rw [h]

theorem existsPath_true_of_lookupFile {fs : FS} {p c : String}
    (h : fs.lookupFile p = some c) : fs.existsPath p = true := by
  unfold FS.existsPath
  simp [h]

theorem organizeStep_files_of_not_moved {base : String} {fs : FS} {f : FileInfo}
    (h : (organizeStep base fs f).1 ≠ Outcome.moved) :
    (organizeStep base fs f).2.files = fs.files := by
  have hfiles :=
    createDirectoryIfNotExists_files fs (base ++ "/" ++ getCategoryForExtension f.extension)
  rw [organizeStep_def] at h ⊢
  dsimp only at h ⊢
  rcases hcd : createDirectoryIfNotExists fs
      (base ++ "/" ++ getCategoryForExtension f.extension) with ⟨ok, fs1⟩
  rw [hcd] at h hfiles
  cases ok with
  | false =>
    rw [if_pos (by simp : ((!(false, fs1).1) = true))]
    exact hfiles
  | true =>
    rw [if_neg (by simp : ¬ ((!(true, fs1).1) = true))] at h ⊢
    dsimp only at h ⊢
    by_cases hex : fs1.existsPath
        (base ++ "/" ++ getCategoryForExtension f.extension ++ "/" ++ f.name) = true
    · rw [if_pos hex]
      exact hfiles
    · rw [if_neg hex] at h ⊢
      rcases hr : fs1.rename f.path
          (base ++ "/" ++ getCategoryForExtension f.extension ++ "/" ++ f.name) with e | fs2
      · exact hfiles
      · rw [hr] at h
        exact absurd (rfl : Outcome.moved = Outcome.moved) (by exact h)

theorem organizeStep_of_dest_exists {base : String} {fs : FS} {f : FileInfo} {c : String}
    (h : fs.lookupFile (destPathOf base f) = some c) :
    (organizeStep base fs f).1 ≠ Outcome.moved := by
  have hfiles :=
    createDirectoryIfNotExists_files fs (base ++ "/" ++ getCategoryForExtension f.extension)
  rw [organizeStep_def]
  dsimp only
  rcases hcd : createDirectoryIfNotExists fs
      (base ++ "/" ++ getCategoryForExtension f.extension) with ⟨ok, fs1⟩
  rw [hcd] at hfiles
  cases ok with
  | false => simp
  | true =>
    dsimp only
    have hl : fs1.lookupFile
        (base ++ "/" ++ getCategoryForExtension f.extension ++ "/" ++ f.name) = some c := by
      rw [lookupFile_eq_of_files_eq hfiles]
      exact h
    rw [if_pos (existsPath_true_of_lookupFile hl)]
    simp

theorem organizeStep_of_already_at_dest {base : String} {fs : FS} {f : FileInfo} {c : String}
    (hpath : f.path = destPathOf base f)
    (hfile : fs.lookupFile f.path = some c)
    (hdir : fs.dirs.contains (base ++ "/" ++ getCategoryForExtension f.extension) = true) :
    organizeStep base fs f = (Outcome.skippedExists, fs) := by
  rw [organizeStep_def]
  dsimp only
  have hcd : createDirectoryIfNotExists fs
      (base ++ "/" ++ getCategoryForExtension f.extension) = (true, fs) := by
    unfold createDirectoryIfNotExists
    rw [if_pos (by unfold FS.existsPath; rw [hdir, Bool.or_true])]
  rw [hcd]
  dsimp only
  rw [if_neg (by simp : ¬ ((!true) = true))]
  have hl : fs.lookupFile
      (base ++ "/" ++ getCategoryForExtension f.extension ++ "/" ++ f.name) = some c := by
    show fs.lookupFile (destPathOf base f) = some c
    rw [← hpath]
    exact hfile
  rw [if_pos (existsPath_true_of_lookupFile hl)]

/-! ### Lowercasing and table-lookup lemmas -/

theorem toNat_ofNat_valid (m : Nat) (h : m.isValidChar) : (Char.ofNat m).toNat = m := by
  simp only [Char.ofNat, h, dif_pos, Char.ofNatAux, Char.toNat]
  simp [UInt32.toNat, BitVec.toNat_ofNatLt]

theorem toLower_toLower (c : Char) : (Char.toLower c).toLower = c.toLower := by
  simp only [Char.toLower]
  by_cases h : c.toNat ≥ 65 ∧ c.toNat ≤ 90
  · rw [if_pos h]
    have hv : (c.toNat + 32).isValidChar := by
      unfold Nat.isValidChar
      left
      omega
    rw [toNat_ofNat_valid _ hv]
    rw [if_neg (by omega)]
  · rw [if_neg h, if_neg h]

theorem toLowercase_idem (s : String) : toLowercase (toLowercase s) = toLowercase s := by
  unfold toLowercase
  apply congrArg String.mk
  show List.map Char.toLower (List.map Char.toLower s.data) = List.map Char.toLower s.data
  rw [List.map_map]
  exact List.map_congr_left (fun c _ => toLower_toLower c)

theorem lookupTable_eq_of_mem :
    ∀ {m : List (String × String)} {k v : String},
      (m.map Prod.fst).Nodup → (k, v) ∈ m → lookupTable m k = some v := by
  intro m
  induction m with
  | nil => intro k v _ hmem; cases hmem
  | cons kv rest ih =>
    intro k v hnd hmem
    obtain ⟨k1, v1⟩ := kv
    rw [List.map_cons, List.nodup_cons] at hnd
    rcases List.mem_cons.1 hmem with heq | htail
    · cases heq
      simp [lookupTable]
    · have hk1 : k1 ≠ k := by
        intro hk
        subst hk
        exact hnd.1 (List.mem_map.2 ⟨(k1, v), htail, rfl⟩)
      simp only [lookupTable, if_neg hk1]
      exact ih hnd.2 htail

theorem lookupTable_eq_none_of_notin :
    ∀ {m : List (String × String)} {k : String},
      k ∉ m.map Prod.fst → lookupTable m k = none := by
  intro m
  induction m with
  | nil => intro k _; rfl
  | cons kv rest ih =>
    intro k h
    obtain ⟨k1, v1⟩ := kv
    rw [List.map_cons, List.mem_cons] at h
    push_neg at h
    simp only [lookupTable, if_neg (fun hh : k1 = k => h.1 hh.symm)]
    exact ih h.2

theorem string_isEmpty_false_of_ne {s : String} (h : s ≠ "") : s.isEmpty = false := by
  rw [Bool.eq_false_iff]
  intro hc
  exact h ((String.isEmpty_iff s).1 hc)

theorem list_isEmpty_false_of_ne {α : Type} {l : List α} (h : l ≠ []) :
    l.isEmpty = false := by
  cases l with
  | nil => exact absurd rfl h
  | cons a t => rfl

/-! ### The claims -/

/-- C1.  The extension extractor evaluated at the spec's four examples.
`"file.txt"`, `"archive.tar.gz"` and `"README"` behave as specified, but
for `".gitignore"` the code requires the last dot's position to be
strictly positive (`dotPos > 0`, FileManager.cpp line 217) and therefore
returns `""` — contradicting both the claim and the function's own
documentation block, which promise `".gitignore" → ".gitignore"`. -/
theorem extractExtension_eval :
    extractExtension "file.txt" = ".txt" ∧
    extractExtension "archive.tar.gz" = ".gz" ∧
    extractExtension "README" = "" ∧
    extractExtension ".gitignore" = "" := by
  refine ⟨?_, ?_, ?_, ?_⟩ <;> decide

/-- C5.  Every extension present in the fixed table maps to its table
category, and every absent extension — the empty string included — maps to
`"Others"`. -/
theorem getCategoryForExtension_spec :
    (∀ e cat : String, (e, cat) ∈ extensionCategories →
      getCategoryForExtension e = cat) ∧
    (∀ e : String, e ∉ extensionCategories.map Prod.fst →
      getCategoryForExtension e = "Others") ∧
    getCategoryForExtension "" = "Others" := by
  refine ⟨?_, ?_, by decide⟩
  · intro e cat hmem
    unfold getCategoryForExtension
    rw [lookupTable_eq_of_mem (by decide) hmem]
  · intro e hnot
    unfold getCategoryForExtension
    rw [lookupTable_eq_none_of_notin hnot]

/-- Witness for C5: `".txt"` is in the table and classifies as
`"Documents"`; `".xyz"` is not in the table and classifies as
`"Others"`. -/
theorem getCategoryForExtension_spec_witness :
    ((".txt", "Documents") ∈ extensionCategories ∧
      getCategoryForExtension ".txt" = "Documents") ∧
    (".xyz" ∉ extensionCategories.map Prod.fst ∧
      getCategoryForExtension ".xyz" = "Others") :=
  ⟨⟨by decide, getCategoryForExtension_spec.1 ".txt" "Documents" (by decide)⟩,
   ⟨by decide, getCategoryForExtension_spec.2.1 ".xyz" (by decide)⟩⟩

/-- C6.  The searcher returns a sublist of the input (original relative
order, no additions), the match is insensitive to the case of the search
term, and the spec's example holds: `"REPORT"` against
`["report.txt", "Report_2024.pdf", "summary.doc"]` selects exactly the
first two, in order. -/
theorem searchByName_spec :
    (∀ (files : List FileInfo) (term : String),
      (searchByName files term).Sublist files) ∧
    (∀ (files : List FileInfo) (term : String),
      searchByName files (toLowercase term) = searchByName files term) ∧
    searchByName [reportTxt, reportPdf, summaryDoc] "REPORT" =
      [reportTxt, reportPdf] := by
  refine ⟨?_, ?_, by decide⟩
  · intro files term
    exact List.filter_sublist files
  · intro files term
    unfold searchByName
    rw [toLowercase_idem]

/-- C8.  The searcher itself matches every record when the term is empty;
the empty-term rejection lives only in `Menu::handleSearchFiles`, which
returns without calling the searcher on an empty term and otherwise passes
the term through unchanged. -/
theorem searchByName_empty_term :
    (∀ files : List FileInfo, searchByName files "" = files) ∧
    (∀ files : List FileInfo, files ≠ [] → handleSearchFiles files "" = none) ∧
    (∀ (files : List FileInfo) (term : String), files ≠ [] → term ≠ "" →
      handleSearchFiles files term = some (searchByName files term)) := by
  refine ⟨?_, ?_, ?_⟩
  · intro files
    unfold searchByName
    apply List.filter_eq_self.2
    intro f _
    unfold containsSubstr
    exact decide_eq_true ⟨[], (toLowercase f.name).data, by simp [toLowercase]⟩
  · intro files h
    unfold handleSearchFiles
    rw [list_isEmpty_false_of_ne h]
    rfl
  · intro files term hf ht
    unfold handleSearchFiles
    rw [list_isEmpty_false_of_ne hf, string_isEmpty_false_of_ne ht]
    rfl

/-- Witness for C8: on the nonempty collection `[reportTxt]` the searcher
with empty term returns everything, while the menu boundary rejects the
empty term and accepts a nonempty one. -/
theorem searchByName_empty_term_witness :
    searchByName [reportTxt] "" = [reportTxt] ∧
    handleSearchFiles [reportTxt] "" = none ∧
    handleSearchFiles [reportTxt] "rep" =
      some (searchByName [reportTxt] "rep") :=
  ⟨searchByName_empty_term.1 [reportTxt],
   searchByName_empty_term.2.1 [reportTxt] (by decide),
   searchByName_empty_term.2.2 [reportTxt] "rep" (by decide) (by decide)⟩

/-- C9.  A missing directory and a directory that cannot be opened for
iteration both yield the count 0 with an empty record collection, and the
scan result never depends on the prior collection: the scan clears and
fully replaces it. -/
theorem scanDirectory_spec :
    (∀ prior : List FileInfo, scanDirectory prior DirListing.missing = (0, [])) ∧
    (∀ prior : List FileInfo, scanDirectory prior DirListing.openFails = (0, [])) ∧
    (∀ (p1 p2 : List FileInfo) (d : DirListing),
      scanDirectory p1 d = scanDirectory p2 d) := by
  refine ⟨fun _ => rfl, fun _ => rfl, ?_⟩
  intro p1 p2 d
  cases d <;> rfl

/-- C10.  The fingerprint is injective on the (size, name) pair: two
records produce the same `generateSimpleHash` string exactly when their
sizes and names agree, because the decimal rendering of the size contains
no `'_'`, so the first `'_'` delimits size from name unambiguously. -/
theorem generateSimpleHash_injective_on_size_name (f1 f2 : FileInfo) :
    generateSimpleHash f1 = generateSimpleHash f2 ↔
      f1.size = f2.size ∧ f1.name = f2.name :=
  generateSimpleHash_eq_iff f1 f2

/-- C2.  When a record's computed destination already holds a file, the
reorganize loop skips the record: the outcome is not a move, the files on
disk are untouched (in particular the pre-existing destination content and
the source path's content are preserved), and the moved count returned by
`organizeByExtension` receives no contribution from this record. -/
theorem organize_skips_existing_destination (base : String) (fs : FS) (f : FileInfo)
    (rest : List FileInfo) (c : String)
    (h : fs.lookupFile (destPathOf base f) = some c) :
    (organizeStep base fs f).1 ≠ Outcome.moved ∧
    (organizeStep base fs f).2.files = fs.files ∧
    (organizeStep base fs f).2.lookupFile (destPathOf base f) = some c ∧
    (organizeStep base fs f).2.lookupFile f.path = fs.lookupFile f.path ∧
    (organizeByExtension (f :: rest) base fs).1 =
      (organizeByExtension rest base (organizeStep base fs f).2).1 := by
  have h1 := organizeStep_of_dest_exists h
  have h2 := organizeStep_files_of_not_moved h1
  refine ⟨h1, h2, ?_, ?_, ?_⟩
  · rw [lookupFile_eq_of_files_eq h2]
    exact h
  · exact lookupFile_eq_of_files_eq h2 f.path
  · rw [organizeByExtension_cons, if_neg h1]
    simp

/-- Witness for C2: in `fsConflict` the destination of `recA` is occupied
by content `"B"`; the step is not a move, both files survive unchanged,
and the moved count over the singleton batch equals the count over the
empty remainder. -/
theorem organize_skips_existing_destination_witness :
    fsConflict.lookupFile (destPathOf "/base" recA) = some "B" ∧
    ((organizeStep "/base" fsConflict recA).1 ≠ Outcome.moved ∧
     (organizeStep "/base" fsConflict recA).2.files = fsConflict.files ∧
     (organizeStep "/base" fsConflict recA).2.lookupFile (destPathOf "/base" recA) = some "B" ∧
     (organizeStep "/base" fsConflict recA).2.lookupFile recA.path =
       fsConflict.lookupFile recA.path ∧
     (organizeByExtension [recA] "/base" fsConflict).1 =
       (organizeByExtension [] "/base" (organizeStep "/base" fsConflict recA).2).1) :=
  ⟨by decide,
   organize_skips_existing_destination "/base" fsConflict recA [] "B" (by decide)⟩

/-- C3.  On an already-organized input — every record resides at its
computed destination and its category directory exists — a run of
`organizeByExtension` is a no-op: it moves nothing, returns the count 0,
and leaves the filesystem state exactly as it was, every record taking the
conflict-skip path. -/
theorem organize_idempotent_on_organized (files : List FileInfo) (base : String) (fs : FS)
    (h : ∀ f ∈ files, f.path = destPathOf base f ∧
      (fs.lookupFile f.path).isSome = true ∧
      fs.dirs.contains (base ++ "/" ++ getCategoryForExtension f.extension) = true) :
    organizeByExtension files base fs = (0, fs) := by
  induction files with
  | nil => rfl
  | cons f rest ih =>
    obtain ⟨hpath, hsome, hdir⟩ := h f (List.mem_cons_self f rest)
    obtain ⟨c, hc⟩ := Option.isSome_iff_exists.1 hsome
    rw [organizeByExtension_cons, organizeStep_of_already_at_dest hpath hc hdir]
    dsimp only
    rw [ih (fun g hg => h g (List.mem_cons_of_mem f hg))]
    simp

/-- Witness for C3: `recOrganized` already sits at its destination inside
`fsOrganized`; a run over the singleton collection changes nothing and
reports 0 moves. -/
theorem organize_idempotent_on_organized_witness :
    (∀ f ∈ [recOrganized], f.path = destPathOf "/base" f ∧
      (fsOrganized.lookupFile f.path).isSome = true ∧
      fsOrganized.dirs.contains
        ("/base" ++ "/" ++ getCategoryForExtension f.extension) = true) ∧
    organizeByExtension [recOrganized] "/base" fsOrganized = (0, fsOrganized) :=
  ⟨by decide,
   organize_idempotent_on_organized [recOrganized] "/base" fsOrganized (by decide)⟩

/-- C7.  A record whose processing fails — directory creation returned
false, or the rename raised — contributes nothing to the moved count and
leaves every file in place, and the batch continues with the remaining
records: `organizeByExtension` on the whole list equals
`organizeByExtension` on the tail from the post-step state.  No exception
escapes: `organizeStep` and `organizeByExtension` are total functions of
the state, every error branch of the model ending in the
`Outcome.failed` continuation rather than a propagated `Except.error`. -/
theorem organize_isolates_failures (base : String) (fs : FS) (f : FileInfo)
    (rest : List FileInfo)
    (h : (organizeStep base fs f).1 = Outcome.failed) :
    (organizeStep base fs f).2.files = fs.files ∧
    organizeByExtension (f :: rest) base fs =
      organizeByExtension rest base (organizeStep base fs f).2 := by
  refine ⟨organizeStep_files_of_not_moved (by rw [h]; simp), ?_⟩
  rw [organizeByExtension_cons, if_neg (by rw [h]; simp)]
  simp

/-- Witness for C7: moving `recA` out of the empty filesystem fails (the
source file is missing, so `fs::rename` raises); the record is skipped,
the state's files are unchanged, and the batch equals the batch over the
remaining records. -/
theorem organize_isolates_failures_witness :
    (organizeStep "/base" fsEmpty recA).1 = Outcome.failed ∧
    ((organizeStep "/base" fsEmpty recA).2.files = fsEmpty.files ∧
     organizeByExtension [recA, recOrganized] "/base" fsEmpty =
       organizeByExtension [recOrganized] "/base" (organizeStep "/base" fsEmpty recA).2) :=
  ⟨by decide,
   organize_isolates_failures "/base" fsEmpty recA [recOrganized] (by decide)⟩

/-- C4.  `findDuplicates` exposes only groups of two or more records; when
all records have pairwise-distinct (size, name) pairs the result is empty;
and any two distinct records agreeing in size and name appear together in
exactly one group, the one keyed by their shared fingerprint. -/
theorem findDuplicates_spec (files : List FileInfo) :
    (∀ kg ∈ findDuplicates files, 2 ≤ kg.2.length) ∧
    (files.Pairwise (fun f g => ¬(f.size = g.size ∧ f.name = g.name)) →
      findDuplicates files = []) ∧
    (∀ f1 f2 : FileInfo, f1 ∈ files → f2 ∈ files → f1 ≠ f2 →
      f1.size = f2.size → f1.name = f2.name →
      ∃! kg : String × List FileInfo, kg ∈ findDuplicates files ∧
        kg.1 = generateSimpleHash f1 ∧ f1 ∈ kg.2 ∧ f2 ∈ kg.2) := by
  refine ⟨?_, ?_, ?_⟩
  · intro kg hkg
    exact of_decide_eq_true (List.mem_filter.1 hkg).2
  · intro hp
    have hp2 : files.Pairwise
        (fun f g => generateSimpleHash f ≠ generateSimpleHash g) :=
      hp.imp (fun h heq => h ((generateSimpleHash_eq_iff _ _).1 heq))
    unfold findDuplicates
    rw [List.filter_eq_nil_iff]
    intro kg hkg
    obtain ⟨k, g⟩ := kg
    have hg : lookupGroup (hashGroups files) k = g :=
      lookupGroup_eq_of_mem (nodup_keysOf_hashGroups files) hkg
    rw [lookupGroup_hashGroups] at hg
    simp only [decide_eq_true_eq]
    intro hlen
    have hone := length_filter_le_one_of_pairwise (k := k) hp2
    rw [hg] at hone
    omega
  · intro f1 f2 h1 h2 hne hsz hnm
    have hashEq : generateSimpleHash f2 = generateSimpleHash f1 :=
      (generateSimpleHash_eq_iff f2 f1).2 ⟨hsz.symm, hnm.symm⟩
    have hf1 : f1 ∈ files.filter
        (fun f => generateSimpleHash f = generateSimpleHash f1) :=
      List.mem_filter.2 ⟨h1, by simp⟩
    have hf2 : f2 ∈ files.filter
        (fun f => generateSimpleHash f = generateSimpleHash f1) :=
      List.mem_filter.2 ⟨h2, by simp [hashEq]⟩
    have hlen : 2 ≤ (files.filter
        (fun f => generateSimpleHash f = generateSimpleHash f1)).length :=
      two_le_length_of_mem_ne hf1 hf2 hne
    have hbne : files.filter
        (fun f => generateSimpleHash f = generateSimpleHash f1) ≠ [] := by
      intro hnil
      rw [hnil] at hlen
      simp at hlen
    have hkey : generateSimpleHash f1 ∈ keysOf (hashGroups files) :=
      mem_keysOf_of_lookupGroup_ne_nil (by rw [lookupGroup_hashGroups]; exact hbne)
    obtain ⟨g, hg⟩ := exists_entry_of_mem_keysOf hkey
    have hgb : g = files.filter
        (fun f => generateSimpleHash f = generateSimpleHash f1) := by
      have he := lookupGroup_eq_of_mem (nodup_keysOf_hashGroups files) hg
      rw [lookupGroup_hashGroups] at he
      exact he.symm
    have hmem : (generateSimpleHash f1, g) ∈ findDuplicates files :=
      List.mem_filter.2 ⟨hg, decide_eq_true (show 2 ≤ g.length by rw [hgb]; exact hlen)⟩
    refine ⟨(generateSimpleHash f1, g), ⟨hmem, rfl, ?_, ?_⟩, ?_⟩
    · rw [show ((generateSimpleHash f1, g) : String × List FileInfo).2 = g from rfl, hgb]
      exact hf1
    · rw [show ((generateSimpleHash f1, g) : String × List FileInfo).2 = g from rfl, hgb]
      exact hf2
    · rintro ⟨k2, g2⟩ ⟨hmem2, hk2, hf1in, hf2in⟩
      have hin : (k2, g2) ∈ hashGroups files := (List.mem_filter.1 hmem2).1
      have hk2' : k2 = generateSimpleHash f1 := hk2
      have hg2 : g2 = g := by
        have e1 := lookupGroup_eq_of_mem (nodup_keysOf_hashGroups files) hin
        rw [hk2', lookupGroup_hashGroups] at e1
        rw [hgb]
        exact e1.symm
      rw [Prod.ext_iff]
      exact ⟨hk2', hg2⟩

/-- Witness for C4: `dupA` and `dupB` share size 7 and name
`"notes.txt"` while differing in path; in the three-record collection they
land together in exactly one duplicate group, keyed by their shared
fingerprint. -/
theorem findDuplicates_spec_witness :
    (dupA ∈ [dupA, dupB, summaryDoc] ∧ dupB ∈ [dupA, dupB, summaryDoc] ∧
     dupA ≠ dupB ∧ dupA.size = dupB.size ∧ dupA.name = dupB.name) ∧
    (∃! kg : String × List FileInfo,
      kg ∈ findDuplicates [dupA, dupB, summaryDoc] ∧
        kg.1 = generateSimpleHash dupA ∧ dupA ∈ kg.2 ∧ dupB ∈ kg.2) :=
  ⟨by decide,
   (findDuplicates_spec [dupA, dupB, summaryDoc]).2.2 dupA dupB (by decide)
     (by decide) (by decide) (by decide) (by decide)⟩

end FileApp
